import Mathlib

/-!
Verification of the sns-poster core against its natural-language
specification.  The Go sources are shallowly embedded: pure computations
become Lean functions, the browser / filesystem environment becomes
explicit state or environment records, and each UI flow is a function
from an environment describing the outcome of its probe steps to a
result together with a trace of the page-affecting events it performed.
-/

namespace SnsPoster

/-! ## Display width (model of the go-runewidth dependency)

`Service.PublishContent` (src/unnamed/part_009) truncates titles with
`runewidth.StringWidth` / `runewidth.Truncate` from the external
`github.com/mattn/go-runewidth` dependency (not part of this repository).
-/

/-- Modelled from the spec: the go-runewidth East-Asian-Wide test for one
character.  Wide/CJK characters (CJK ideographs, kana, hangul, fullwidth
forms, wide emoji) have display width 2; this lists the wide ranges
relevant to the repository's inputs. -/
def isWideRune (c : Char) : Bool :=
  let v := c.toNat
  (0x1100 ≤ v && v ≤ 0x115F) ||
  (0x2E80 ≤ v && v ≤ 0x303E) ||
  (0x3041 ≤ v && v ≤ 0x33FF) ||
  (0x3400 ≤ v && v ≤ 0x4DBF) ||
  (0x4E00 ≤ v && v ≤ 0x9FFF) ||
  (0xA000 ≤ v && v ≤ 0xA4CF) ||
  (0xAC00 ≤ v && v ≤ 0xD7A3) ||
  (0xF900 ≤ v && v ≤ 0xFAFF) ||
  (0xFE30 ≤ v && v ≤ 0xFE4F) ||
  (0xFF00 ≤ v && v ≤ 0xFF60) ||
  (0xFFE0 ≤ v && v ≤ 0xFFE6) ||
  (0x1F300 ≤ v && v ≤ 0x1F64F) ||
  (0x20000 ≤ v && v ≤ 0x2FFFD) ||
  (0x30000 ≤ v && v ≤ 0x3FFFD)

/-- Modelled from the spec: go-runewidth `RuneWidth`.  Control characters
have width 0, printable ASCII has width 1, wide/CJK characters width 2,
every other character width 1. -/
def runeWidth (c : Char) : Nat :=
  if c.toNat < 0x20 then 0
  else if c.toNat = 0x7F then 0
  else if isWideRune c then 2
  else 1

/-- go-runewidth `StringWidth`: sum of the rune widths. -/
def stringWidth (s : String) : Nat :=
  (s.data.map runeWidth).sum

/-- The rune-consuming loop of go-runewidth `Truncate` with an empty tail:
keep runes while the accumulated width stays within the budget `b`, stop at
the first rune that would overflow it. -/
def takeWidth : List Char → Nat → List Char
  | [], _ => []
  | c :: cs, b => if runeWidth c ≤ b then c :: takeWidth cs (b - runeWidth c) else []

/-- go-runewidth `Truncate s w ""`: the string is returned unchanged when
its width is within `w`, otherwise it is cut to the maximal rune prefix of
width at most `w`. -/
def truncateWidth (s : String) (w : Nat) : String :=
  if stringWidth s ≤ w then s else ⟨takeWidth s.data w⟩

/-! ## Sensitive-word redaction (`Service.filterSensitiveWordsByRegex`,
src/unnamed/part_009 lines 163-173)

The Go code replaces every match of the regular expression
`https?://[^\s]+` by `***`.  A match starts at a position carrying the
scheme `http://` or `https://` followed by at least one non-space
character and greedily extends over all following non-space characters. -/

/-- Space characters for the regexp class `\s` (Go / RE2). -/
def isSpaceChar (c : Char) : Bool :=
  c = ' ' || c = '\t' || c = '\n' || c = '\x0b' || c = '\x0c' || c = '\r'

/-- Does the regular expression `https?://[^\s]+` match starting at the
head of the list? -/
def urlMatchHere (l : List Char) : Bool :=
  match l with
  | 'h' :: 't' :: 't' :: 'p' :: rest =>
    match rest with
    | ':' :: '/' :: '/' :: d :: _ => !isSpaceChar d
    | 's' :: ':' :: '/' :: '/' :: d :: _ => !isSpaceChar d
    | _ => false
  | _ => false

/-- The scan of `regexp.ReplaceAllString` for the pattern
`https?://[^\s]+` with replacement `***`: scan left to right; at a match,
emit `***` and resume after the maximal non-space run (the greedy
`[^\s]+` together with the scheme is exactly the non-space run starting
at the match; its head is the non-space character `h`, so the run of
`c :: cs` is `c` followed by the non-space run of `cs`).  The structural
`fuel` bounds the number of scan steps; every step consumes at least one
character, so `fuel = length` (as passed by `redactChars`) makes the
zero-fuel branch unreachable. -/
def redactAux : Nat → List Char → List Char
  | _, [] => []
  | 0, l => l
  | fuel + 1, c :: cs =>
    if urlMatchHere (c :: cs) then
      '*' :: '*' :: '*' :: redactAux fuel (cs.dropWhile (fun d => !isSpaceChar d))
    else
      c :: redactAux fuel cs

/-- Embedding of `regexp.ReplaceAllString` of the url pattern over a character list. -/
def redactChars (l : List Char) : List Char :=
  redactAux l.length l

/-- Embedding of `Service.filterSensitiveWordsByRegex` on strings. -/
def filterSensitiveWordsByRegex (s : String) : String :=
  ⟨redactChars s.data⟩

/-! ## The publication flow (`Publisher`, src/internal/xhs/xhs_publish.go)

The flow is embedded as a function from an environment — the outcomes of
the individual DOM probes and the local filesystem — to a typed result
paired with the trace of page-affecting events that were performed. -/

/-- The publish request (`PublishContent` struct of the xhs package, with
the account id and source url fields of the src/unnamed/part_009
revision). -/
structure PubReq where
  title : String
  content : String
  images : List String
  tags : List String
  url : String
  accountID : String
  imagePaths : List String
deriving Repr, DecidableEq

/-- Page-affecting events performed by the publication flow. -/
inductive PubEvent
  | navigate (url : String)
  | setFiles (paths : List String)
  | inputTitle (t : String)
  | inputContent (c : String)
  | inputTag (t : String)
  | clickSubmit
deriving Repr, DecidableEq

/-- Typed errors of the publication flow. -/
inductive PubError
  | navigateFailed
  | loginFailed
  | uploadSurfaceNotFound
  | noImages
  | imageMissing (path : String)
  | imageTooLarge (path : String) (size : Nat)
  | fileInputNotFound
  | uploadTimeout
  | titleInputNotFound
  | contentInputNotFound
  | submitNotFound
  | imageProcessFailed
deriving Repr, DecidableEq

/-- The errors classified as asset-invalid (missing file or size over the
ceiling), produced by the validation loop of `uploadImages`. -/
def PubError.isAssetInvalid : PubError → Bool
  | .imageMissing _ => true
  | .imageTooLarge _ _ => true
  | _ => false

/-- Outcomes of the DOM probes of the publication flow. -/
structure PageEnv where
  redirectedToLogin : Bool
  loginOk : Bool
  uploadSurfaceFound : Bool
  fileInputFound : Bool
  uploadCompletes : Bool
  titleInputFound : Bool
  contentInputFound : Bool
  submitFound : Bool
deriving Repr, DecidableEq

/-- A local filesystem: maps a path to the file size in bytes when the
file exists. -/
def FileSys := String → Option Nat

/-- The size ceiling of `uploadImages`: 20MB. -/
def maxImageBytes : Nat := 20 * 1024 * 1024

/-- The validation loop at the head of `Publisher.uploadImages`
(xhs_publish.go lines 140-150): for each path in order, `os.Stat`; a
missing file or a size above 20MB rejects the batch with the first
offending asset's error. -/
def validateImages (fs : FileSys) : List String → Option PubError
  | [] => none
  | p :: ps =>
    match fs p with
    | none => some (.imageMissing p)
    | some sz => if maxImageBytes < sz then some (.imageTooLarge p sz) else validateImages fs ps

/-- Embedding of `Publisher.uploadImages` (xhs_publish.go lines 136-189): validate every
path first; only then locate the file input and hand the whole validated
list to `SetFiles` in one call, then wait for the upload to complete. -/
def uploadImages (fs : FileSys) (penv : PageEnv) (paths : List String) :
    Except PubError Unit × List PubEvent :=
  match validateImages fs paths with
  | some e => (.error e, [])
  | none =>
    if penv.fileInputFound then
      if penv.uploadCompletes then (.ok (), [.setFiles paths])
      else (.error .uploadTimeout, [.setFiles paths])
    else (.error .fileInputNotFound, [])

/-- Tag normalisation of `inputTags`: `strings.TrimLeft(tag, "#")`. -/
def trimHash (t : String) : String :=
  ⟨t.data.dropWhile (fun c => c = '#')⟩

/-- Embedding of `Publisher.submitPublish` (xhs_publish.go lines 261-297): find the
title input and type the title, find the content box and type the body
and the tags, then click the submit control. -/
def submitPublish (penv : PageEnv) (title content : String) (tags : List String) :
    Except PubError Unit × List PubEvent :=
  if penv.titleInputFound then
    if penv.contentInputFound then
      if penv.submitFound then
        (.ok (), .inputTitle title :: .inputContent content ::
          (tags.map (fun t => PubEvent.inputTag (trimHash t)) ++ [.clickSubmit]))
      else
        (.error .submitNotFound, .inputTitle title :: .inputContent content ::
          tags.map (fun t => PubEvent.inputTag (trimHash t)))
    else (.error .contentInputNotFound, [.inputTitle title])
  else (.error .titleInputNotFound, [])

/-- The submission surface url of the publisher. -/
def publishURL : String :=
  "https://creator.xiaohongshu.com/publish/publish?source=official&from=menu&target=image"

/-- Embedding of `NewPublisher` (xhs_publish.go lines 36-115): navigate to the
submission surface; if redirected to the login page run the login flow
inline and navigate again; then require the upload surface container. -/
def NewPublisher (penv : PageEnv) : Except PubError Unit × List PubEvent :=
  if penv.redirectedToLogin then
    if penv.loginOk then
      if penv.uploadSurfaceFound then
        (.ok (), [.navigate publishURL, .navigate publishURL])
      else (.error .uploadSurfaceNotFound, [.navigate publishURL, .navigate publishURL])
    else (.error .loginFailed, [.navigate publishURL])
  else
    if penv.uploadSurfaceFound then (.ok (), [.navigate publishURL])
    else (.error .uploadSurfaceNotFound, [.navigate publishURL])

/-- Embedding of `Publisher.Publish` (xhs_publish.go lines 118-134): reject an empty
image list, upload the images, then fill the metadata and submit. -/
def Publisher.Publish (fs : FileSys) (penv : PageEnv) (c : PubReq) :
    Except PubError Unit × List PubEvent :=
  if c.imagePaths = [] then (.error .noImages, [])
  else
    match uploadImages fs penv c.imagePaths with
    | (.error e, evs) => (.error e, evs)
    | (.ok _, evs) =>
      match submitPublish penv c.title c.content c.tags with
      | (r, evs2) => (r, evs ++ evs2)

/-! ## The service layer (`Service.PublishContent`, src/unnamed/part_009
lines 176-224) -/

/-- Title display-width ceiling (`MaxTitleRuneWidth`, part_009 line 26). -/
def MaxTitleRuneWidth : Nat := 38

/-- Body display-width ceiling (`MaxContentRuneWidth`, part_009 line 28). -/
def MaxContentRuneWidth : Nat := 1200

/-- The title step of `Service.PublishContent` (part_009 lines 179-188):
truncate the title to the ceiling when its display width exceeds it. -/
def processTitle (t : String) : String :=
  if MaxTitleRuneWidth < stringWidth t then truncateWidth t MaxTitleRuneWidth else t

/-- The body step of `Service.PublishContent` (part_009 lines 192-198). -/
def processContent (c : String) : String :=
  if MaxContentRuneWidth < stringWidth c then truncateWidth c MaxContentRuneWidth else c

/-- Embedding of `PublishResponse` (part_009 lines 93-98). -/
structure PublishResponse where
  title : String
  content : String
  images : Nat
  status : String
deriving Repr, DecidableEq

/-- Environment of one `Service.PublishContent` execution: the outcome of
the image-resolution collaborator, the DOM probe outcomes and the local
filesystem. -/
structure ServiceEnv where
  processImagesResult : Except Unit (List String)
  penv : PageEnv
  fs : FileSys

/-- The page-interacting tail of `Service.PublishContent` (part_009 lines
214-223): lease a page, construct the publisher (navigating to the
submission surface) and run the publication flow on the prepared request.
The Go function ends with `return nil, publisher.Publish(ctx, *req)`, so
the response value is `none` even on success. -/
def Service.publishPagePhase (env : ServiceEnv) (req2 : PubReq) :
    Except PubError (Option PublishResponse) × List PubEvent :=
  match NewPublisher env.penv with
  | (.error e, evs) => (.error e, evs)
  | (.ok _, evs) =>
    match Publisher.Publish env.fs env.penv req2 with
    | (r, evs2) => (r.map (fun _ => (none : Option PublishResponse)), evs ++ evs2)

/-- The pure preparation of `Service.PublishContent` (part_009 lines
177-201): truncate the title and the body and redact sensitive
substrings, before any network interaction. -/
def Service.prepareRequest (req : PubReq) (paths : List String) : PubReq :=
  { req with title := processTitle req.title,
             content := filterSensitiveWordsByRegex (processContent req.content),
             imagePaths := paths }

/-- Embedding of `Service.PublishContent` (src/unnamed/part_009 lines 176-224):
truncation and redaction first, then image resolution, then the
page-interacting phase. -/
def Service.PublishContent (env : ServiceEnv) (req : PubReq) :
    Except PubError (Option PublishResponse) × List PubEvent :=
  match env.processImagesResult with
  | .error _ => (.error .imageProcessFailed, [])
  | .ok paths => Service.publishPagePhase env (Service.prepareRequest req paths)

/-! ## Credential file paths (`getCookiesFilePath`,
src/internal/utils/cookies.go lines 125-144)

`filepath.Join` joins the non-empty elements with `/` and then applies
`filepath.Clean`, which lexically removes empty, `.` and resolvable `..`
elements.  The embedding works on `List Char` so the lexical processing
is an ordinary structural recursion. -/

/-- Split a character list at every `/` (the separator itself is dropped;
the result is always non-empty). -/
def splitSlash : List Char → List (List Char)
  | [] => [[]]
  | c :: cs =>
    match splitSlash cs with
    | [] => [[]]
    | h :: t => if c = '/' then [] :: h :: t else (c :: h) :: t

/-- The element processing of `filepath.Clean`: skip empty and `.`
elements, let `..` drop the preceding kept element (or be kept itself at
the head of a relative path, or dropped at the root of a rooted one), and
keep everything else.  `acc` holds the kept elements in reverse. -/
def cleanElems (rooted : Bool) : List (List Char) → List (List Char) → List (List Char)
  | acc, [] => acc.reverse
  | acc, e :: es =>
    if e = [] ∨ e = ['.'] then cleanElems rooted acc es
    else if e = ['.', '.'] then
      match acc with
      | a :: rest =>
        if a = ['.', '.'] then cleanElems rooted (e :: a :: rest) es
        else cleanElems rooted rest es
      | [] => if rooted then cleanElems rooted [] es else cleanElems rooted [e] es
    else cleanElems rooted (e :: acc) es

/-- Embedding of `filepath.Clean` on the character list of a path. -/
def cleanPath (l : List Char) : List Char :=
  let rooted : Bool := decide (l.head? = some '/')
  let out := List.intercalate ['/'] (cleanElems rooted [] (splitSlash l))
  if rooted then '/' :: out
  else if out = [] then ['.']
  else out

/-- Embedding of `filepath.Join`: join the non-empty elements with `/` and clean. -/
def filepathJoin (parts : List (List Char)) : List Char :=
  cleanPath (List.intercalate ['/'] (parts.filter (fun p => p ≠ [])))

/-- Embedding of `getCookiesFilePath` (cookies.go lines 125-144).  For the empty
account id the legacy `/tmp/cookies.json` is preferred when that file
exists (`os.TempDir()` modelled as `/tmp`), falling back to
`./cookies.json`; a non-empty id uses `./cookies/<id>.json`. -/
def getCookiesFilePath (tmpCookiesExists : Bool) (accountID : String) : String :=
  if accountID = "" then
    if tmpCookiesExists then ⟨filepathJoin ["/tmp".data, "cookies.json".data]⟩
    else ⟨filepathJoin [".".data, "cookies.json".data]⟩
  else
    ⟨filepathJoin [".".data, "cookies".data, (accountID ++ ".json").data]⟩

/-! ## Credential serialisation (`CookieManager`,
src/internal/utils/cookies.go lines 37-74)

`SaveCookies` marshals the browser's cookie list to JSON and writes the
file; `LoadCookies` reads the file and unmarshals it (a missing file is
`nil, nil`, not an error).  JSON documents are embedded as an inductive
value; `encodeCookies`/`decodeCookies` model `json.Marshal`/`json.Unmarshal`
for `[]*proto.NetworkCookie` restricted to the persisted fields. -/

/-- A JSON document (numbers restricted to integers, which covers the
persisted cookie fields). -/
inductive Json
  | jstr (s : String)
  | jnum (n : Int)
  | jbool (b : Bool)
  | jarr (xs : List Json)
  | jobj (fields : List (String × Json))

/-- One cookie record restricted to the persisted fields of
`proto.NetworkCookie`: `{name, value, domain, path, secure, httpOnly,
sameSite, expires}`. -/
structure NetworkCookie where
  name : String
  value : String
  domain : String
  path : String
  secure : Bool
  httpOnly : Bool
  sameSite : String
  expires : Int
deriving Repr, DecidableEq

/-- Embedding of `json.Marshal` of one cookie record. -/
def encodeCookie (c : NetworkCookie) : Json :=
  .jobj [("name", .jstr c.name), ("value", .jstr c.value),
         ("domain", .jstr c.domain), ("path", .jstr c.path),
         ("secure", .jbool c.secure), ("httpOnly", .jbool c.httpOnly),
         ("sameSite", .jstr c.sameSite), ("expires", .jnum c.expires)]

/-- Field lookup of `json.Unmarshal` into a struct: the first object field
with the given key. -/
def jsonLookup (fields : List (String × Json)) (k : String) : Option Json :=
  match fields with
  | [] => none
  | (k2, v) :: rest => if k2 = k then some v else jsonLookup rest k

/-- Read a JSON string field. -/
def jsonAsStr : Option Json → Option String
  | some (.jstr s) => some s
  | _ => none

/-- Read a JSON boolean field. -/
def jsonAsBool : Option Json → Option Bool
  | some (.jbool b) => some b
  | _ => none

/-- Read a JSON number field. -/
def jsonAsNum : Option Json → Option Int
  | some (.jnum n) => some n
  | _ => none

/-- Embedding of `json.Unmarshal` of one cookie record. -/
def decodeCookie (j : Json) : Option NetworkCookie :=
  match j with
  | .jobj fields => do
    let name ← jsonAsStr (jsonLookup fields "name")
    let value ← jsonAsStr (jsonLookup fields "value")
    let domain ← jsonAsStr (jsonLookup fields "domain")
    let path ← jsonAsStr (jsonLookup fields "path")
    let secure ← jsonAsBool (jsonLookup fields "secure")
    let httpOnly ← jsonAsBool (jsonLookup fields "httpOnly")
    let sameSite ← jsonAsStr (jsonLookup fields "sameSite")
    let expires ← jsonAsNum (jsonLookup fields "expires")
    pure ⟨name, value, domain, path, secure, httpOnly, sameSite, expires⟩
  | _ => none

/-- Embedding of `json.Marshal` of a cookie list. -/
def encodeCookies (cs : List NetworkCookie) : Json :=
  .jarr (cs.map encodeCookie)

/-- Embedding of `json.Unmarshal` of a JSON array element by element (a single
non-decodable element fails the whole unmarshal). -/
def decodeCookieList : List Json → Option (List NetworkCookie)
  | [] => some []
  | j :: js =>
    match decodeCookie j, decodeCookieList js with
    | some c, some cs => some (c :: cs)
    | _, _ => none

/-- Embedding of `json.Unmarshal` of a cookie list. -/
def decodeCookies (j : Json) : Option (List NetworkCookie) :=
  match j with
  | .jarr xs => decodeCookieList xs
  | _ => none

/-- The durable file store: maps a path to the JSON document stored there. -/
def CookieStore := String → Option Json

/-- Write a document at a path. -/
def storeWrite (st : CookieStore) (path : String) (j : Json) : CookieStore :=
  fun p => if p = path then some j else st p

/-- Embedding of `CookieManager.SaveCookies` (cookies.go lines 55-74): marshal the
browser's cookies and write them at the manager's file path. -/
def SaveCookies (st : CookieStore) (filePath : String) (cookies : List NetworkCookie) :
    CookieStore :=
  storeWrite st filePath (encodeCookies cookies)

/-- A typed load failure (`failed to unmarshal cookies`). -/
inductive LoadError
  | unmarshalFailed
deriving Repr, DecidableEq

/-- Embedding of `CookieManager.LoadCookies` (cookies.go lines 37-53): a missing file
yields `none` (not an error); otherwise the document is unmarshalled. -/
def LoadCookies (st : CookieStore) (filePath : String) :
    Except LoadError (Option (List NetworkCookie)) :=
  match st filePath with
  | none => .ok none
  | some j =>
    match decodeCookies j with
    | some cs => .ok (some cs)
    | none => .error .unmarshalFailed

/-! ## The completion wait (`Login.waitForLoginSuccess`,
src/internal/xhs/xhs_login.go lines 363-402)

The loop runs until a 5-minute deadline, each iteration testing the
authenticated DOM marker (the primary selector or one of the fallback
success selectors) and then waiting on the caller's cancellation or a
2-second tick.  Time is discretised into 2-second poll iterations:
`300s / 2s = 150` iterations; `marker i` is the marker probe at
iteration `i` and `cancelled i` whether the caller's context is done
during iteration `i`'s select. -/

/-- The poll interval of `waitForLoginSuccess` in seconds
(`checkInterval := 2 * time.Second`). -/
def loginPollIntervalSec : Nat := 2

/-- The wait ceiling of `waitForLoginSuccess` in seconds
(`timeout := 300 * time.Second`). -/
def loginWaitCeilingSec : Nat := 300

/-- The number of poll iterations before the deadline. -/
def loginWaitMaxIters : Nat := loginWaitCeilingSec / loginPollIntervalSec

/-- Typed results of the completion wait: the marker was seen, the
caller's context was cancelled (`ctx.Err()` is returned), or the 5-minute
deadline passed (the typed timeout error is returned). -/
inductive WaitRes
  | success
  | ctxCancelled
  | timedOut
deriving Repr, DecidableEq

/-- The poll loop of `waitForLoginSuccess`, returning the result together
with the iteration index at which the loop stopped. -/
def waitLoopFrom (marker : Nat → Bool) (cancelled : Nat → Bool) : Nat → Nat → WaitRes × Nat
  | i, 0 => (.timedOut, i)
  | i, remaining + 1 =>
    if marker i then (.success, i)
    else if cancelled i then (.ctxCancelled, i)
    else waitLoopFrom marker cancelled (i + 1) remaining

/-- Embedding of `Login.waitForLoginSuccess` over the discretised clock. -/
def waitForLoginSuccess (marker : Nat → Bool) (cancelled : Nat → Bool) : WaitRes × Nat :=
  waitLoopFrom marker cancelled 0 loginWaitMaxIters

/-! ## The login flow (`Login.Login`, src/internal/xhs/xhs_login.go
lines 58-121)

Navigate to the landing surface; if the authenticated marker is already
present, fetch the user info and save the cookies.  Otherwise trigger the
challenge (`triggerLoginQRCode` returns nil on every path), extract and
display it (`waitAndDisplayQRCode` can fail when no challenge artifact is
found), wait for completion, fetch the user info and only then save the
cookies.  `SaveCookies` failure is only logged. -/

/-- Environment of one `Login.Login` execution. -/
structure LoginEnv where
  /-- The authenticated DOM marker is present on the landing surface. -/
  alreadyLoggedIn : Bool
  /-- `getUserInfo` succeeds. -/
  userInfoOk : Bool
  /-- `waitAndDisplayQRCode` finds and hands off a challenge artifact. -/
  qrOk : Bool
  /-- Outcome of `waitForLoginSuccess`. -/
  waitOutcome : WaitRes
  /-- The browser's current cookie set (saved on success). -/
  browserCookies : List NetworkCookie
  /-- Whether the legacy `/tmp/cookies.json` exists (path resolution). -/
  tmpCookiesExists : Bool

/-- Typed errors of the login flow. -/
inductive LoginError
  | userInfoFailed
  | qrCodeNotFound
  | loginTimeout
  | ctxCancelled
deriving Repr, DecidableEq

/-- Result of one `Login.Login` execution: the returned value, the
credential store after the run, and whether `SaveCookies` was invoked. -/
structure LoginRunResult where
  result : Except LoginError Unit
  store : CookieStore
  saved : Bool

/-- Embedding of `Login.Login` (xhs_login.go lines 58-121) over the environment and the
credential store. -/
def LoginRun (env : LoginEnv) (accountID : String) (st : CookieStore) : LoginRunResult :=
  let path := getCookiesFilePath env.tmpCookiesExists accountID
  if env.alreadyLoggedIn then
    if env.userInfoOk then
      ⟨.ok (), SaveCookies st path env.browserCookies, true⟩
    else ⟨.error .userInfoFailed, st, false⟩
  else
    if env.qrOk then
      match env.waitOutcome with
      | .success =>
        if env.userInfoOk then
          ⟨.ok (), SaveCookies st path env.browserCookies, true⟩
        else ⟨.error .userInfoFailed, st, false⟩
      | .ctxCancelled => ⟨.error .ctxCancelled, st, false⟩
      | .timedOut => ⟨.error .loginTimeout, st, false⟩
    else ⟨.error .qrCodeNotFound, st, false⟩

/-! ## Browser engine connection (`NewBrowser`,
src/internal/utils/browser.go lines 120-211)

The initial connection runs under a 10-second context; a connection
failure (the goroutine recovers a panic into a nil result) or the context
timeout triggers `restartRodContainer` and, when the restart succeeds, a
single retry without a timeout.  `logrus.Fatal` terminates the process. -/

/-- Outcome of the initial connection attempt under the 10s context. -/
inductive FirstConnect
  | ok
  | failed
  | timedOut
deriving Repr, DecidableEq

/-- Environment of one `NewBrowser` execution. -/
structure BrowserEnv where
  firstConnect : FirstConnect
  /-- `restartRodContainer` (docker restart of the hosting container) succeeds. -/
  restartOk : Bool
  /-- The retry `browser.Connect()` (no timeout) succeeds. -/
  retryOk : Bool
deriving Repr, DecidableEq

/-- Engine-level events of `NewBrowser`. -/
inductive BrowserEvent
  | connectWithTimeout
  | restartContainer
  | connectNoTimeout
deriving Repr, DecidableEq

/-- Result of `NewBrowser`: a live connection, or process termination
(`logrus.Fatal`). -/
inductive BrowserInit
  | connected
  | processTerminated
deriving Repr, DecidableEq

/-- Embedding of `NewBrowser` (browser.go lines 120-211): result and event trace. -/
def NewBrowser (env : BrowserEnv) : BrowserInit × List BrowserEvent :=
  match env.firstConnect with
  | .ok => (.connected, [.connectWithTimeout])
  | .failed =>
    if env.restartOk then
      if env.retryOk then
        (.connected, [.connectWithTimeout, .restartContainer, .connectNoTimeout])
      else (.processTerminated, [.connectWithTimeout, .restartContainer, .connectNoTimeout])
    else (.processTerminated, [.connectWithTimeout, .restartContainer])
  | .timedOut =>
    if env.restartOk then
      if env.retryOk then
        (.connected, [.connectWithTimeout, .restartContainer, .connectNoTimeout])
      else (.processTerminated, [.connectWithTimeout, .restartContainer, .connectNoTimeout])
    else (.processTerminated, [.connectWithTimeout, .restartContainer])

/-! ## Per-account context creation (`Browser.getOrCreateIncognitoContext`,
src/internal/utils/browser.go lines 75-106)

The concurrent behaviour is embedded as an interleaving semantics: every
call advances through at most two atomic phases — the read-locked lookup
(lines 84-89) and the write-locked double-checked create (lines 92-105) —
and a schedule is an arbitrary sequence of call indices, each occurrence
advancing that call by one phase.  An atomic phase is sound because the
read section only reads the map and the whole write section holds the
write lock. -/

/-- The value returned by a call: the root browser (empty id) or the
account's incognito context. -/
inductive CtxVal
  | rootCtx
  | acctCtx (id : String)
deriving Repr, DecidableEq

/-- Progress of one call. -/
inductive CallPhase
  | ready
  | waitingWrite
  | finished (v : CtxVal)
deriving Repr, DecidableEq

/-- State of the interleaved execution: which ids have a context, how many
contexts have been created per id (counting `MustIncognito` calls), and
each call's phase. -/
structure ConcState where
  hasCtx : String → Bool
  createdCount : String → Nat
  phases : List CallPhase

/-- Advance call `i` (with account id `ids[i]`) by one phase. -/
def concAdvance (ids : List String) (s : ConcState) (i : Nat) : ConcState :=
  match ids[i]?, s.phases[i]? with
  | some id, some .ready =>
    if id = "" then
      { s with phases := s.phases.set i (.finished .rootCtx) }
    else if s.hasCtx id then
      { s with phases := s.phases.set i (.finished (.acctCtx id)) }
    else
      { s with phases := s.phases.set i .waitingWrite }
  | some id, some .waitingWrite =>
    if s.hasCtx id then
      { s with phases := s.phases.set i (.finished (.acctCtx id)) }
    else
      { hasCtx := fun k => if k = id then true else s.hasCtx k,
        createdCount := fun k => if k = id then s.createdCount k + 1 else s.createdCount k,
        phases := s.phases.set i (.finished (.acctCtx id)) }
  | _, _ => s

/-- Run a schedule (a list of call indices). -/
def concRun (ids : List String) (s : ConcState) : List Nat → ConcState
  | [] => s
  | i :: rest => concRun ids (concAdvance ids s i) rest

/-- The initial state: no contexts, no creations, every call ready. -/
def concInit (ids : List String) : ConcState :=
  ⟨fun _ => false, fun _ => 0, List.replicate ids.length .ready⟩

/-- The execution invariant of the double-checked locking protocol: the
empty id never enters the map, a context for an id exists exactly when one
creation happened for it, a call between its read and write phases targets
a non-empty id, and every finished call returned the root context (empty
id) or the unique context of its id. -/
def ConcInv (ids : List String) (s : ConcState) : Prop :=
  s.hasCtx "" = false ∧
  s.createdCount "" = 0 ∧
  (∀ id, id ≠ "" → s.createdCount id = if s.hasCtx id then 1 else 0) ∧
  s.phases.length = ids.length ∧
  (∀ (i : Nat), s.phases[i]? = some CallPhase.waitingWrite →
    ∃ id, ids[i]? = some id ∧ id ≠ "") ∧
  (∀ (i : Nat) (v : CtxVal), s.phases[i]? = some (CallPhase.finished v) →
    ∃ id, ids[i]? = some id ∧
      ((id = "" ∧ v = CtxVal.rootCtx) ∨
        (id ≠ "" ∧ v = CtxVal.acctCtx id ∧ s.hasCtx id = true)))

/-! ## Account id resolution (`getAccountID`, src/unnamed/part_010
lines 647-662) -/

/-- The hardcoded fallback account id left in `getAccountID` behind a
`FIXME: remove this after testing` comment. -/
def hardcodedAccountID : String := "65b09837000000000e025e61"

/-- Embedding of `getAccountID` (part_010 lines 649-662): prefer the `account_id`
query parameter, then the `X-Account-ID` header, and otherwise return the
hardcoded account id. -/
def getAccountID (query header : String) : String :=
  if query ≠ "" then query
  else if header ≠ "" then header
  else hardcodedAccountID

/-! ## Concrete sample inputs used by witnesses and counterexamples -/

/-- A page environment in which every DOM probe succeeds and no redirect
to the login surface happens. -/
def allOkPageEnv : PageEnv :=
  { redirectedToLogin := false, loginOk := true, uploadSurfaceFound := true,
    fileInputFound := true, uploadCompletes := true, titleInputFound := true,
    contentInputFound := true, submitFound := true }

/-- A sample filesystem: two small images exist, everything else is
missing. -/
def sampleFs : FileSys :=
  fun p => if p = "a.jpg" ∨ p = "b.jpg" ∨ p = "img.jpg" then some 1000 else none

/-- An ASCII title of display width 50. -/
def title50 : String := ⟨List.replicate 50 'a'⟩

/-- A publish request whose title has display width 50. -/
def req50 : PubReq :=
  { title := title50, content := "body", images := ["img.jpg"], tags := [],
    url := "", accountID := "", imagePaths := [] }

/-- A service environment in which every step succeeds. -/
def okServiceEnv : ServiceEnv :=
  { processImagesResult := .ok ["img.jpg"], penv := allOkPageEnv, fs := sampleFs }

/-- The batch `[valid, valid, missing]` of the spec's atomicity scenario. -/
def mixedBatchReq : PubReq :=
  { title := "t", content := "c", images := [], tags := [],
    url := "", accountID := "", imagePaths := ["a.jpg", "b.jpg", "missing.jpg"] }

/-- The empty credential store. -/
def emptyStore : CookieStore := fun _ => none

/-- A login environment in which challenge discovery fails (no challenge
artifact is found) on a not-yet-authenticated account. -/
def qrFailEnv : LoginEnv :=
  { alreadyLoggedIn := false, userInfoOk := true, qrOk := false,
    waitOutcome := .timedOut, browserCookies := [], tmpCookiesExists := false }

/-! # Theorems -/

/-! ## Display-width truncation -/

theorem sum_map_takeWidth_le (l : List Char) (b : Nat) :
    ((takeWidth l b).map runeWidth).sum ≤ b := by
  induction l generalizing b with
  | nil => simp [takeWidth]
  | cons c cs ih =>
    simp only [takeWidth]
    split
    · rename_i h
      have := ih (b - runeWidth c)
      simp only [List.map_cons, List.sum_cons]
      omega
    · simp

theorem takeWidth_prefixOf (l : List Char) (b : Nat) :
    takeWidth l b <+: l := by
  induction l generalizing b with
  | nil => simp [takeWidth]
  | cons c cs ih =>
    simp only [takeWidth]
    split
    · exact List.cons_prefix_cons.mpr ⟨rfl, ih (b - runeWidth c)⟩
    · exact List.nil_prefix

theorem stringWidth_truncateWidth_le (s : String) (w : Nat) :
    stringWidth (truncateWidth s w) ≤ w := by
  unfold truncateWidth
  split
  · assumption
  · simpa [stringWidth] using sum_map_takeWidth_le s.data w

theorem truncateWidth_data_prefixOf (s : String) (w : Nat) :
    (truncateWidth s w).data <+: s.data := by
  unfold truncateWidth
  split
  · exact List.prefix_refl _
  · exact takeWidth_prefixOf s.data w

/-! ## Traces of the publication flow -/

theorem inputTitle_not_in_newPublisher (penv : PageEnv) (s : String) :
    PubEvent.inputTitle s ∉ (NewPublisher penv).2 := by
  unfold NewPublisher
  repeat' split
  all_goals simp

theorem inputTitle_not_in_uploadImages (fs : FileSys) (penv : PageEnv)
    (paths : List String) (s : String) :
    PubEvent.inputTitle s ∉ (uploadImages fs penv paths).2 := by
  unfold uploadImages
  repeat' split
  all_goals simp

theorem inputTitle_in_submitPublish (penv : PageEnv) (t c : String)
    (tags : List String) (s : String)
    (h : PubEvent.inputTitle s ∈ (submitPublish penv t c tags).2) : s = t := by
  unfold submitPublish at h
  repeat' split at h
  all_goals simp_all

theorem inputTitle_in_publish (fs : FileSys) (penv : PageEnv) (c : PubReq) (s : String)
    (h : PubEvent.inputTitle s ∈ (Publisher.Publish fs penv c).2) : s = c.title := by
  unfold Publisher.Publish at h
  split at h
  · simp at h
  · rcases h1 : uploadImages fs penv c.imagePaths with ⟨r1, evs⟩
    rw [h1] at h
    cases r1 with
    | error e =>
      have := inputTitle_not_in_uploadImages fs penv c.imagePaths s
      rw [h1] at this
      exact absurd h this
    | ok _ =>
      rcases h2 : submitPublish penv c.title c.content c.tags with ⟨r2, evs2⟩
      rw [h2] at h
      simp only [List.mem_append] at h
      rcases h with h | h
      · have := inputTitle_not_in_uploadImages fs penv c.imagePaths s
        rw [h1] at this
        exact absurd h this
      · have := inputTitle_in_submitPublish penv c.title c.content c.tags s
        rw [h2] at this
        exact this h

/-- Claim C1: for every publish request whose title has display-width
greater than the ceiling (38 units), `Service.PublishContent` replaces
the title before any page interaction with a string of display-width at
most the ceiling that is a prefix of the original; titles at or below the
ceiling are unchanged.  The first conjunct states that every title typed
into the page carries the already-truncated value `processTitle
req.title`, the pure transformation performed before the flow emits any
event. -/
theorem C1_title_truncated_before_page_interaction (env : ServiceEnv) (req : PubReq) :
    (∀ s, PubEvent.inputTitle s ∈ (Service.PublishContent env req).2 →
      s = processTitle req.title) ∧
    (MaxTitleRuneWidth < stringWidth req.title →
      stringWidth (processTitle req.title) ≤ MaxTitleRuneWidth ∧
      (processTitle req.title).data <+: req.title.data) ∧
    (stringWidth req.title ≤ MaxTitleRuneWidth → processTitle req.title = req.title) := by
  have phase : ∀ (req2 : PubReq) s, PubEvent.inputTitle s ∈ (Service.publishPagePhase env req2).2 →
      s = req2.title := by
    intro req2 s hs
    unfold Service.publishPagePhase at hs
    rcases hnp : NewPublisher env.penv with ⟨r1, evs⟩
    rw [hnp] at hs
    cases r1 with
    | error e =>
      have := inputTitle_not_in_newPublisher env.penv s
      rw [hnp] at this
      exact absurd hs this
    | ok _ =>
      rcases hp : Publisher.Publish env.fs env.penv req2 with ⟨r2, evs2⟩
      rw [hp] at hs
      simp only [List.mem_append] at hs
      rcases hs with hs | hs
      · have := inputTitle_not_in_newPublisher env.penv s
        rw [hnp] at this
        exact absurd hs this
      · have := inputTitle_in_publish env.fs env.penv req2 s
        rw [hp] at this
        exact this hs
  refine ⟨?_, ?_, ?_⟩
  · intro s hs
    unfold Service.PublishContent at hs
    rcases hpi : env.processImagesResult with u | paths
    · rw [hpi] at hs
      simp at hs
    · rw [hpi] at hs
      exact phase (Service.prepareRequest req paths) s hs
  · intro h
    unfold processTitle
    rw [if_pos h]
    exact ⟨stringWidth_truncateWidth_le _ _, truncateWidth_data_prefixOf _ _⟩
  · intro h
    unfold processTitle
    rw [if_neg (by omega)]

/-- Witness for C1: the ASCII title of display-width 50 is above the
ceiling, and its processed version has display-width at most 38 and is a
prefix of the original. -/
theorem C1_title_truncated_before_page_interaction_witness :
    stringWidth (processTitle title50) ≤ MaxTitleRuneWidth ∧
    (processTitle title50).data <+: title50.data :=
  (C1_title_truncated_before_page_interaction okServiceEnv req50).2.1 (by decide)

/-- Claim C7 (code bug): on a fully successful publish of a title of
display-width 50, `Service.PublishContent` of src/unnamed/part_009 ends
with `return nil, publisher.Publish(ctx, *req)`: the submitted title is
the 38-unit truncation, but the returned response is `nil` — no
`PublishResult` echoing the submitted content is ever produced. -/
theorem C7_success_returns_nil_response :
    (Service.PublishContent okServiceEnv req50).1 = .ok none ∧
    (Service.PublishContent okServiceEnv req50).2 =
      [.navigate publishURL, .setFiles ["img.jpg"],
       .inputTitle ⟨List.replicate 38 'a'⟩, .inputContent "body", .clickSubmit] := by
  constructor
  · rfl
  · rfl

/-! ## Asset-batch validation -/

theorem validateImages_some_of_invalid (fs : FileSys) (paths : List String)
    (h : ∃ p ∈ paths, fs p = none ∨ ∃ sz, fs p = some sz ∧ maxImageBytes < sz) :
    ∃ e, validateImages fs paths = some e ∧ e.isAssetInvalid = true := by
  induction paths with
  | nil => simp at h
  | cons p ps ih =>
    rcases h with ⟨q, hq, hbad⟩
    simp only [List.mem_cons] at hq
    rcases hfp : fs p with _ | sz
    · refine ⟨.imageMissing p, ?_, rfl⟩
      simp [validateImages, hfp]
    · by_cases hsz : maxImageBytes < sz
      · refine ⟨.imageTooLarge p sz, ?_, rfl⟩
        simp [validateImages, hfp, hsz]
      · have hstep : validateImages fs (p :: ps) = validateImages fs ps := by
          simp [validateImages, hfp, hsz]
        rw [hstep]
        rcases hq with rfl | hq
        · rcases hbad with hbad | ⟨sz2, hsz2, hbig⟩
          · rw [hfp] at hbad
            exact absurd hbad (by simp)
          · rw [hfp] at hsz2
            injection hsz2 with hsz2
            omega
        · exact ih ⟨q, hq, hbad⟩

/-- Claim C6: `uploadImages` validates every path before any file is
handed to the file input; a batch containing a missing or oversized asset
is rejected with an asset-invalid error, no `SetFiles` call is made and
the page sees no event at all from the publish attempt. -/
theorem C6_invalid_batch_rejected_before_page_effects (fs : FileSys) (penv : PageEnv)
    (c : PubReq)
    (h : ∃ p ∈ c.imagePaths, fs p = none ∨ ∃ sz, fs p = some sz ∧ maxImageBytes < sz) :
    ∃ e, Publisher.Publish fs penv c = (.error e, []) ∧ e.isAssetInvalid = true := by
  rcases validateImages_some_of_invalid fs c.imagePaths h with ⟨e, he, hinv⟩
  refine ⟨e, ?_, hinv⟩
  have hne : c.imagePaths ≠ [] := by
    rcases h with ⟨p, hp, _⟩
    intro hnil
    rw [hnil] at hp
    simp at hp
  unfold Publisher.Publish uploadImages
  rw [if_neg hne, he]

/-- Witness for C6: the batch `[valid, valid, missing]` over the sample
filesystem is rejected with an asset-invalid error and an empty event
trace. -/
theorem C6_invalid_batch_rejected_before_page_effects_witness :
    ∃ e, Publisher.Publish sampleFs allOkPageEnv mixedBatchReq = (.error e, []) ∧
      e.isAssetInvalid = true :=
  C6_invalid_batch_rejected_before_page_effects sampleFs allOkPageEnv mixedBatchReq
    ⟨"missing.jpg", by decide, Or.inl (by decide)⟩

/-! ## Credential file paths -/

theorem splitSlash_cons_eq (c : Char) (cs : List Char) :
    splitSlash (c :: cs) = match splitSlash cs with
      | [] => [[]]
      | h :: t => if c = '/' then [] :: h :: t else (c :: h) :: t := by
  rfl

theorem splitSlash_ne_nil (l : List Char) : splitSlash l ≠ [] := by
  induction l with
  | nil => simp [splitSlash]
  | cons c cs ih =>
    rw [splitSlash_cons_eq]
    rcases h : splitSlash cs with _ | ⟨h1, t⟩
    · exact absurd h ih
    · show (if c = '/' then [] :: h1 :: t else (c :: h1) :: t) ≠ []
      split <;> simp

theorem splitSlash_sep_append (xs ys : List Char) (hxs : ∀ c ∈ xs, c ≠ '/') :
    splitSlash (xs ++ '/' :: ys) = xs :: splitSlash ys := by
  induction xs with
  | nil =>
    simp only [List.nil_append]
    rw [splitSlash_cons_eq]
    rcases h : splitSlash ys with _ | ⟨h1, t⟩
    · exact absurd h (splitSlash_ne_nil ys)
    · simp [h]
  | cons c cs ih =>
    have hc : c ≠ '/' := hxs c (by simp)
    have ihcs := ih (fun d hd => hxs d (by simp [hd]))
    simp only [List.cons_append]
    rw [splitSlash_cons_eq, ihcs]
    simp [hc]

theorem splitSlash_no_sep (xs : List Char) (hxs : ∀ c ∈ xs, c ≠ '/') :
    splitSlash xs = [xs] := by
  induction xs with
  | nil => simp [splitSlash]
  | cons c cs ih =>
    have hc : c ≠ '/' := hxs c (by simp)
    have ihcs := ih (fun d hd => hxs d (by simp [hd]))
    rw [splitSlash_cons_eq, ihcs]
    simp [hc]

theorem cleanPath_dot_cookies (w : List Char) (hwne : w ≠ []) (hwdot : w ≠ ['.'])
    (hwdd : w ≠ ['.', '.']) (hwfree : ∀ c ∈ w, c ≠ '/') :
    cleanPath ('.' :: '/' :: ("cookies".data ++ '/' :: w)) = "cookies".data ++ '/' :: w := by
  have hsplit : splitSlash ('.' :: '/' :: ("cookies".data ++ '/' :: w)) =
      [['.'], "cookies".data, w] := by
    have h1 := splitSlash_sep_append ['.'] ("cookies".data ++ '/' :: w) (by decide)
    simp only [List.singleton_append] at h1
    rw [h1, splitSlash_sep_append "cookies".data w (by decide), splitSlash_no_sep w hwfree]
  have hw1 : ¬(w = [] ∨ w = ['.']) := by
    rintro h
    rcases h with h | h
    exacts [hwne h, hwdot h]
  have hclean : cleanElems false [] [['.'], "cookies".data, w] = ["cookies".data, w] := by
    simp only [cleanElems, if_neg hw1, if_neg hwdd]
    simp [cleanElems]
  have hout : List.intercalate ['/'] ["cookies".data, w] = "cookies".data ++ '/' :: w := by
    simp [List.intercalate, List.intersperse]
  simp only [cleanPath, hsplit, List.head?_cons]
  simp only [show (decide ((some '.' : Option Char) = some '/')) = false from rfl]
  rw [hclean, hout]
  simp

theorem getCookiesFilePath_of_slashfree (tmp : Bool) (A : String) (h0 : A ≠ "")
    (hA : ∀ c ∈ A.data, c ≠ '/') :
    getCookiesFilePath tmp A = ⟨"cookies".data ++ '/' :: (A.data ++ ".json".data)⟩ := by
  have hw : (A ++ ".json").data = A.data ++ ".json".data := String.data_append A ".json"
  have hwlen : (A.data ++ ".json".data).length = A.data.length + 5 := by
    rw [List.length_append]
    rfl
  have hwne : A.data ++ ".json".data ≠ [] := by
    intro hcon
    have := congrArg List.length hcon
    rw [hwlen] at this
    simp at this
  have hwdot : A.data ++ ".json".data ≠ ['.'] := by
    intro hcon
    have := congrArg List.length hcon
    rw [hwlen] at this
    simp at this
  have hwdd : A.data ++ ".json".data ≠ ['.', '.'] := by
    intro hcon
    have := congrArg List.length hcon
    rw [hwlen] at this
    simp at this
  have hjson : ∀ c ∈ ".json".data, c ≠ '/' := by decide
  have hwfree : ∀ c ∈ A.data ++ ".json".data, c ≠ '/' := by
    intro c hc
    rcases List.mem_append.mp hc with hc | hc
    · exact hA c hc
    · exact hjson c hc
  unfold getCookiesFilePath
  rw [if_neg h0]
  unfold filepathJoin
  have hfilter :
      List.filter (fun p => decide (p ≠ [])) [".".data, "cookies".data, (A ++ ".json").data] =
        [".".data, "cookies".data, (A ++ ".json").data] := by
    rw [hw]
    rw [List.filter_cons_of_pos (by decide), List.filter_cons_of_pos (by decide),
      List.filter_cons_of_pos (by simp [hwne])]
    rfl
  rw [hfilter, hw]
  have hinter :
      List.intercalate ['/'] [".".data, "cookies".data, A.data ++ ".json".data] =
        '.' :: '/' :: ("cookies".data ++ '/' :: (A.data ++ ".json".data)) := by
    simp [List.intercalate, List.intersperse]
  rw [hinter, cleanPath_dot_cookies (A.data ++ ".json".data) hwne hwdot hwdd hwfree]

theorem getCookiesFilePath_inj_of_slashfree (tmp : Bool) (A B : String) (hAB : A ≠ B)
    (hA : ∀ c ∈ A.data, c ≠ '/') (hB : ∀ c ∈ B.data, c ≠ '/') :
    getCookiesFilePath tmp A ≠ getCookiesFilePath tmp B := by
  by_cases h0A : A = ""
  · by_cases h0B : B = ""
    · exact absurd (h0A.trans h0B.symm) hAB
    · rw [getCookiesFilePath_of_slashfree tmp B h0B hB, h0A]
      intro hcon
      cases tmp with
      | true =>
        have : ("/tmp/cookies.json" : String) =
            ⟨"cookies".data ++ '/' :: (B.data ++ ".json".data)⟩ := by
          simpa [getCookiesFilePath] using hcon
        have hdata := congrArg String.data this
        simp at hdata
      | false =>
        have : ("cookies.json" : String) =
            ⟨"cookies".data ++ '/' :: (B.data ++ ".json".data)⟩ := by
          simpa [getCookiesFilePath] using hcon
        have hdata := congrArg String.data this
        simp at hdata
  · by_cases h0B : B = ""
    · rw [getCookiesFilePath_of_slashfree tmp A h0A hA, h0B]
      intro hcon
      cases tmp with
      | true =>
        have : (⟨"cookies".data ++ '/' :: (A.data ++ ".json".data)⟩ : String) =
            "/tmp/cookies.json" := by
          simpa [getCookiesFilePath] using hcon
        have hdata := congrArg String.data this
        simp at hdata
      | false =>
        have : (⟨"cookies".data ++ '/' :: (A.data ++ ".json".data)⟩ : String) =
            "cookies.json" := by
          simpa [getCookiesFilePath] using hcon
        have hdata := congrArg String.data this
        simp at hdata
    · rw [getCookiesFilePath_of_slashfree tmp A h0A hA,
        getCookiesFilePath_of_slashfree tmp B h0B hB]
      intro hcon
      have hdata : "cookies".data ++ '/' :: (A.data ++ ".json".data) =
          "cookies".data ++ '/' :: (B.data ++ ".json".data) := by
        injection hcon
      have h1 : A.data ++ ".json".data = B.data ++ ".json".data := by
        have := List.append_cancel_left hdata
        injection this
      have h2 : A.data = B.data := List.append_cancel_right h1
      apply hAB
      cases A
      cases B
      exact congrArg String.mk h2

/-- Counterexample for C2: the path is not injective on all distinct
account ids — `filepath.Join` cleans the id `"./b"` to the same file as
`"b"` — and for the empty id the path is not a function of the id alone
(it depends on whether the legacy `/tmp/cookies.json` exists). -/
theorem C2_counterexample_path_collision :
    (("./b" : String) ≠ "b" ∧
      getCookiesFilePath false "./b" = getCookiesFilePath false "b") ∧
    getCookiesFilePath true "" ≠ getCookiesFilePath false "" := by
  constructor
  · constructor
    · decide
    · decide
  · decide

/-- Claim C2 (amended): for distinct account ids that contain no path
separator, the credential file paths differ, so saving a credential under
`A` leaves the result of `load(B)` unchanged (for ids containing `/`,
path cleaning can collapse two ids onto one file, and the empty id's path
additionally depends on whether the legacy temp file exists). -/
theorem C2_slashfree_ids_never_cross_contaminate (tmp : Bool) (A B : String)
    (hAB : A ≠ B) (hA : ∀ c ∈ A.data, c ≠ '/') (hB : ∀ c ∈ B.data, c ≠ '/') :
    getCookiesFilePath tmp A ≠ getCookiesFilePath tmp B ∧
    ∀ (st : CookieStore) (cookies : List NetworkCookie),
      LoadCookies (SaveCookies st (getCookiesFilePath tmp A) cookies)
          (getCookiesFilePath tmp B) =
        LoadCookies st (getCookiesFilePath tmp B) := by
  have hne := getCookiesFilePath_inj_of_slashfree tmp A B hAB hA hB
  refine ⟨hne, ?_⟩
  intro st cookies
  unfold LoadCookies SaveCookies storeWrite
  rw [if_neg (fun hcon => hne hcon.symm)]

/-- Witness for C2 (amended): two concrete slash-free ids get distinct
paths and a save under the first is invisible to a load under the
second. -/
theorem C2_slashfree_ids_never_cross_contaminate_witness :
    getCookiesFilePath false "acct1" ≠ getCookiesFilePath false "acct2" ∧
    ∀ (st : CookieStore) (cookies : List NetworkCookie),
      LoadCookies (SaveCookies st (getCookiesFilePath false "acct1") cookies)
          (getCookiesFilePath false "acct2") =
        LoadCookies st (getCookiesFilePath false "acct2") :=
  C2_slashfree_ids_never_cross_contaminate false "acct1" "acct2" (by decide)
    (by decide) (by decide)

/-! ## Credential round-trip -/

theorem decodeCookie_encodeCookie (c : NetworkCookie) :
    decodeCookie (encodeCookie c) = some c := by
  rfl

theorem decodeCookies_encodeCookies (cs : List NetworkCookie) :
    decodeCookies (encodeCookies cs) = some cs := by
  show decodeCookieList (cs.map encodeCookie) = some cs
  induction cs with
  | nil => rfl
  | cons c rest ih =>
    simp only [List.map_cons]
    unfold decodeCookieList
    rw [decodeCookie_encodeCookie, ih]

/-- Claim C3: saving a cookie set under an account id and loading under
the same id round-trips through the JSON file — the loaded credential is
semantically equal to the saved one, for every account id and every
store/filesystem state. -/
theorem C3_save_load_roundtrip (tmp : Bool) (accountID : String)
    (cookies : List NetworkCookie) (st : CookieStore) :
    LoadCookies (SaveCookies st (getCookiesFilePath tmp accountID) cookies)
      (getCookiesFilePath tmp accountID) = .ok (some cookies) := by
  unfold LoadCookies SaveCookies storeWrite
  rw [if_pos rfl]
  show (match decodeCookies (encodeCookies cookies) with
    | some cs => Except.ok (some cs)
    | none => Except.error LoadError.unmarshalFailed) = Except.ok (some cookies)
  rw [decodeCookies_encodeCookies]

/-! ## Credential persistence only after authentication -/

/-- Claim C4: a credential file is never written for a failed
authentication — in every execution of `Login.Login`, `SaveCookies` is
invoked only when the authenticated DOM marker was observed (either
already logged in, or `waitForLoginSuccess` returned without error), and
when challenge discovery or the completion wait fails the store is
returned unchanged. -/
theorem C4_no_credential_for_failed_auth (env : LoginEnv) (accountID : String)
    (st : CookieStore) :
    ((LoginRun env accountID st).saved = true →
      env.alreadyLoggedIn = true ∨ env.waitOutcome = .success) ∧
    ((env.alreadyLoggedIn = false ∧ (env.qrOk = false ∨ env.waitOutcome ≠ .success)) →
      (LoginRun env accountID st).saved = false ∧ (LoginRun env accountID st).store = st) := by
  constructor
  · intro hsaved
    unfold LoginRun at hsaved
    rcases ha : env.alreadyLoggedIn with _ | _
    · rw [ha] at hsaved
      simp only [Bool.false_eq_true, if_false] at hsaved
      rcases hq : env.qrOk with _ | _
      · rw [hq] at hsaved
        simp at hsaved
      · rw [hq] at hsaved
        simp only [if_true] at hsaved
        rcases hw : env.waitOutcome with _ | _ | _
        · exact Or.inr rfl
        · rw [hw] at hsaved
          simp at hsaved
        · rw [hw] at hsaved
          simp at hsaved
    · exact Or.inl rfl
  · rintro ⟨ha, hfail⟩
    unfold LoginRun
    rw [ha]
    simp only [Bool.false_eq_true, if_false]
    rcases hq : env.qrOk with _ | _
    · simp
    · rcases hw : env.waitOutcome with _ | _ | _
      · rcases hfail with hfail | hfail
        · rw [hq] at hfail
          exact absurd hfail (by simp)
        · exact absurd hw hfail
      · simp
      · simp

/-- Witness for C4: when challenge discovery fails, no save happens and
the store is unchanged. -/
theorem C4_no_credential_for_failed_auth_witness :
    (LoginRun qrFailEnv "acct1" emptyStore).saved = false ∧
    (LoginRun qrFailEnv "acct1" emptyStore).store = emptyStore :=
  (C4_no_credential_for_failed_auth qrFailEnv "acct1" emptyStore).2 ⟨rfl, Or.inl rfl⟩

/-! ## Engine connection -/

/-- Counterexample for C5: when the initial connection times out and the
container restart itself fails, `NewBrowser` terminates the process
without performing any retry — contrary to the claim that a timeout is
always followed by exactly one retry and that only a failed retry
terminates the process. -/
theorem C5_counterexample_no_retry_when_restart_fails :
    NewBrowser { firstConnect := .timedOut, restartOk := false, retryOk := true } =
      (.processTerminated, [.connectWithTimeout, .restartContainer]) ∧
    BrowserEvent.connectNoTimeout ∉
      (NewBrowser { firstConnect := .timedOut, restartOk := false, retryOk := true }).2 := by
  constructor
  · rfl
  · decide

/-- Claim C5 (amended): `NewBrowser` attempts the connection under the
10-second context; on timeout or failure it triggers exactly one recovery
(container restart); if the recovery succeeds, exactly one retry without
a timeout follows and its failure is fatal; if the recovery itself fails
the process also terminates (without a retry); in no other case does
`NewBrowser` terminate the process. -/
theorem C5_connect_single_recovery_then_fatal (env : BrowserEnv) :
    (env.firstConnect = .ok → NewBrowser env = (.connected, [.connectWithTimeout])) ∧
    (env.firstConnect ≠ .ok →
      (NewBrowser env).2.count .restartContainer = 1 ∧
      (env.restartOk = true →
        (NewBrowser env).2.count .connectNoTimeout = 1 ∧
        ((NewBrowser env).1 = .connected ↔ env.retryOk = true)) ∧
      (env.restartOk = false →
        (NewBrowser env).2.count .connectNoTimeout = 0 ∧
        (NewBrowser env).1 = .processTerminated)) ∧
    ((NewBrowser env).1 = .processTerminated ↔
      env.firstConnect ≠ .ok ∧ (env.restartOk = false ∨ env.retryOk = false)) := by
  rcases env with ⟨fc, ro, ry⟩
  cases fc <;> cases ro <;> cases ry <;> decide

/-- Witness for C5 (amended): a failed first connection with a successful
restart performs exactly one retry and connects when the retry succeeds. -/
theorem C5_connect_single_recovery_then_fatal_witness :
    (NewBrowser { firstConnect := .failed, restartOk := true, retryOk := true }).2.count
        .connectNoTimeout = 1 ∧
    ((NewBrowser { firstConnect := .failed, restartOk := true, retryOk := true }).1 =
        .connected ↔ True) := by
  have h := ((C5_connect_single_recovery_then_fatal
    { firstConnect := .failed, restartOk := true, retryOk := true }).2.1
      (by decide)).2.1 (by decide)
  exact ⟨h.1, by rw [h.2]; simp⟩

/-! ## The completion wait -/

theorem waitLoopFrom_iters_le (marker cancelled : Nat → Bool) (i fuel : Nat) :
    (waitLoopFrom marker cancelled i fuel).2 ≤ i + fuel := by
  induction fuel generalizing i with
  | zero => simp [waitLoopFrom]
  | succ n ih =>
    unfold waitLoopFrom
    split
    · simp
    · split
      · simp
      · have := ih (i + 1)
        omega

theorem waitLoopFrom_timeout (marker cancelled : Nat → Bool) (i fuel : Nat)
    (hm : ∀ j, marker j = false) (hc : ∀ j, cancelled j = false) :
    waitLoopFrom marker cancelled i fuel = (.timedOut, i + fuel) := by
  induction fuel generalizing i with
  | zero => simp [waitLoopFrom]
  | succ n ih =>
    unfold waitLoopFrom
    rw [hm i, hc i]
    simp only [Bool.false_eq_true, if_false]
    rw [ih (i + 1)]
    congr 1
    omega

theorem waitLoopFrom_cancelled (marker cancelled : Nat → Bool) (i fuel t : Nat)
    (hit : i ≤ t) (htf : t < i + fuel)
    (hm : ∀ j, j ≤ t → marker j = false) (hc : ∀ j, j < t → cancelled j = false)
    (hct : cancelled t = true) :
    waitLoopFrom marker cancelled i fuel = (.ctxCancelled, t) := by
  induction fuel generalizing i with
  | zero => omega
  | succ n ih =>
    unfold waitLoopFrom
    rw [hm i hit]
    simp only [Bool.false_eq_true, if_false]
    by_cases hi : i = t
    · rw [hi, hct]
      simp
    · rw [hc i (by omega)]
      simp only [Bool.false_eq_true, if_false]
      exact ih (i + 1) (by omega) (by omega)

/-- Claim C8: the completion wait polls the marker at the fixed 2-second
interval, never runs past the 300-second ceiling (at most 150
iterations), returns the typed timeout error when the marker never
appears and nothing cancels, and exits promptly with the caller's
cancellation error at the iteration where cancellation is observed. -/
theorem C8_completion_wait_bounded_cancellable (marker cancelled : Nat → Bool) :
    (waitForLoginSuccess marker cancelled).2 ≤ loginWaitMaxIters ∧
    loginPollIntervalSec * loginWaitMaxIters = loginWaitCeilingSec ∧
    ((∀ j, marker j = false) → (∀ j, cancelled j = false) →
      waitForLoginSuccess marker cancelled = (.timedOut, loginWaitMaxIters)) ∧
    (∀ t, t < loginWaitMaxIters → (∀ j, j ≤ t → marker j = false) →
      (∀ j, j < t → cancelled j = false) → cancelled t = true →
      waitForLoginSuccess marker cancelled = (.ctxCancelled, t)) := by
  refine ⟨?_, by decide, ?_, ?_⟩
  · have := waitLoopFrom_iters_le marker cancelled 0 loginWaitMaxIters
    simpa [waitForLoginSuccess] using this
  · intro hm hc
    have := waitLoopFrom_timeout marker cancelled 0 loginWaitMaxIters hm hc
    simpa [waitForLoginSuccess] using this
  · intro t ht hm hc hct
    have := waitLoopFrom_cancelled marker cancelled 0 loginWaitMaxIters t
      (Nat.zero_le t) (by omega) hm hc hct
    simpa [waitForLoginSuccess] using this

/-- Witness for C8: with the marker never appearing and the caller
cancelling at iteration 3, the wait returns the cancellation result at
iteration 3 — well before the 150-iteration ceiling. -/
theorem C8_completion_wait_bounded_cancellable_witness :
    waitForLoginSuccess (fun _ => false) (fun j => j == 3) = (.ctxCancelled, 3) :=
  (C8_completion_wait_bounded_cancellable (fun _ => false) (fun j => j == 3)).2.2.2 3
    (by decide) (fun j _ => rfl) (fun j hj => by simp; omega) (by decide)

/-! ## Per-account context creation under concurrency -/

theorem concInv_phases_update (ids : List String) (s : ConcState) (hinv : ConcInv ids s)
    (i : Nat) (p : CallPhase) (hlen : i < s.phases.length)
    (hp5 : p = .waitingWrite → ∃ id, ids[i]? = some id ∧ id ≠ "")
    (hp6 : ∀ v, p = .finished v → ∃ id, ids[i]? = some id ∧
      ((id = "" ∧ v = .rootCtx) ∨ (id ≠ "" ∧ v = .acctCtx id ∧ s.hasCtx id = true))) :
    ConcInv ids { s with phases := s.phases.set i p } := by
  obtain ⟨h1, h2, h3, h4, h5, h6⟩ := hinv
  refine ⟨h1, h2, h3, ?_, ?_, ?_⟩
  · rw [List.length_set]
    exact h4
  · intro j hj
    by_cases hij : i = j
    · subst hij
      rw [List.getElem?_set_self hlen] at hj
      injection hj with hj
      exact hp5 hj
    · rw [List.getElem?_set_ne hij] at hj
      exact h5 j hj
  · intro j v hj
    by_cases hij : i = j
    · subst hij
      rw [List.getElem?_set_self hlen] at hj
      injection hj with hj
      exact hp6 v hj
    · rw [List.getElem?_set_ne hij] at hj
      exact h6 j v hj

theorem concAdvance_no_id (ids : List String) (s : ConcState) (i : Nat)
    (hid : ids[i]? = none) : concAdvance ids s i = s := by
  unfold concAdvance
  rw [hid]

theorem concAdvance_no_phase (ids : List String) (s : ConcState) (i : Nat) (id : String)
    (hid : ids[i]? = some id) (hph : s.phases[i]? = none) : concAdvance ids s i = s := by
  unfold concAdvance
  rw [hid, hph]

theorem concAdvance_finished (ids : List String) (s : ConcState) (i : Nat) (id : String)
    (v : CtxVal) (hid : ids[i]? = some id)
    (hph : s.phases[i]? = some (CallPhase.finished v)) : concAdvance ids s i = s := by
  unfold concAdvance
  rw [hid, hph]

theorem concAdvance_ready_root (ids : List String) (s : ConcState) (i : Nat) (id : String)
    (hid : ids[i]? = some id) (hph : s.phases[i]? = some CallPhase.ready) (h0 : id = "") :
    concAdvance ids s i =
      { s with phases := s.phases.set i (CallPhase.finished CtxVal.rootCtx) } := by
  unfold concAdvance
  rw [hid, hph]
  simp [h0]

theorem concAdvance_ready_found (ids : List String) (s : ConcState) (i : Nat) (id : String)
    (hid : ids[i]? = some id) (hph : s.phases[i]? = some CallPhase.ready) (h0 : id ≠ "")
    (hct : s.hasCtx id = true) :
    concAdvance ids s i =
      { s with phases := s.phases.set i (CallPhase.finished (CtxVal.acctCtx id)) } := by
  unfold concAdvance
  rw [hid, hph]
  simp [h0, hct]

theorem concAdvance_ready_wait (ids : List String) (s : ConcState) (i : Nat) (id : String)
    (hid : ids[i]? = some id) (hph : s.phases[i]? = some CallPhase.ready) (h0 : id ≠ "")
    (hct : s.hasCtx id = false) :
    concAdvance ids s i = { s with phases := s.phases.set i CallPhase.waitingWrite } := by
  unfold concAdvance
  rw [hid, hph]
  simp [h0, hct]

theorem concAdvance_write_found (ids : List String) (s : ConcState) (i : Nat) (id : String)
    (hid : ids[i]? = some id) (hph : s.phases[i]? = some CallPhase.waitingWrite)
    (hct : s.hasCtx id = true) :
    concAdvance ids s i =
      { s with phases := s.phases.set i (CallPhase.finished (CtxVal.acctCtx id)) } := by
  unfold concAdvance
  rw [hid, hph]
  simp [hct]

theorem concAdvance_write_create (ids : List String) (s : ConcState) (i : Nat) (id : String)
    (hid : ids[i]? = some id) (hph : s.phases[i]? = some CallPhase.waitingWrite)
    (hct : s.hasCtx id = false) :
    concAdvance ids s i =
      { hasCtx := fun k => if k = id then true else s.hasCtx k,
        createdCount := fun k => if k = id then s.createdCount k + 1 else s.createdCount k,
        phases := s.phases.set i (CallPhase.finished (CtxVal.acctCtx id)) } := by
  unfold concAdvance
  rw [hid, hph]
  simp [hct]

theorem concInv_advance (ids : List String) (s : ConcState) (hinv : ConcInv ids s)
    (i : Nat) : ConcInv ids (concAdvance ids s i) := by
  obtain ⟨h1, h2, h3, h4, h5, h6⟩ := hinv
  rcases hid : ids[i]? with _ | id
  · rw [concAdvance_no_id ids s i hid]
    exact ⟨h1, h2, h3, h4, h5, h6⟩
  · rcases hph : s.phases[i]? with _ | p
    · rw [concAdvance_no_phase ids s i id hid hph]
      exact ⟨h1, h2, h3, h4, h5, h6⟩
    · have hlen : i < s.phases.length := (List.getElem?_eq_some.mp hph).1
      cases p with
      | ready =>
        by_cases hid0 : id = ""
        · rw [concAdvance_ready_root ids s i id hid hph hid0]
          refine concInv_phases_update ids s ⟨h1, h2, h3, h4, h5, h6⟩ i _ hlen
            (by intro hcon; exact absurd hcon (by simp)) ?_
          intro v hv
          injection hv with hv
          exact ⟨id, hid, Or.inl ⟨hid0, hv.symm⟩⟩
        · by_cases hct : s.hasCtx id = true
          · rw [concAdvance_ready_found ids s i id hid hph hid0 hct]
            refine concInv_phases_update ids s ⟨h1, h2, h3, h4, h5, h6⟩ i _ hlen
              (by intro hcon; exact absurd hcon (by simp)) ?_
            intro v hv
            injection hv with hv
            exact ⟨id, hid, Or.inr ⟨hid0, hv.symm, hct⟩⟩
          · have hctf : s.hasCtx id = false := by
              revert hct
              cases s.hasCtx id <;> simp
            rw [concAdvance_ready_wait ids s i id hid hph hid0 hctf]
            refine concInv_phases_update ids s ⟨h1, h2, h3, h4, h5, h6⟩ i _ hlen
              (fun _ => ⟨id, hid, hid0⟩) ?_
            intro v hv
            exact absurd hv (by simp)
      | waitingWrite =>
        obtain ⟨id2, hid2, hne2⟩ := h5 i hph
        rw [hid] at hid2
        injection hid2 with hid2
        subst hid2
        by_cases hct : s.hasCtx id = true
        · rw [concAdvance_write_found ids s i id hid hph hct]
          refine concInv_phases_update ids s ⟨h1, h2, h3, h4, h5, h6⟩ i _ hlen
            (by intro hcon; exact absurd hcon (by simp)) ?_
          intro v hv
          injection hv with hv
          exact ⟨id, hid, Or.inr ⟨hne2, hv.symm, hct⟩⟩
        · have hctf : s.hasCtx id = false := by
            revert hct
            cases s.hasCtx id <;> simp
          rw [concAdvance_write_create ids s i id hid hph hctf]
          refine ⟨?_, ?_, ?_, ?_, ?_, ?_⟩
          · show (if "" = id then true else s.hasCtx "") = false
            rw [if_neg (fun hcon => hne2 hcon.symm)]
            exact h1
          · show (if "" = id then s.createdCount "" + 1 else s.createdCount "") = 0
            rw [if_neg (fun hcon => hne2 hcon.symm)]
            exact h2
          · intro id2 hne
            show (if id2 = id then s.createdCount id2 + 1 else s.createdCount id2) =
              if (if id2 = id then true else s.hasCtx id2) = true then 1 else 0
            by_cases heq : id2 = id
            · subst heq
              rw [if_pos rfl, if_pos rfl, h3 id2 hne]
              rw [if_neg (fun hcon => hct hcon)]
              simp
            · rw [if_neg heq, if_neg heq, h3 id2 hne]
          · show (s.phases.set i (.finished (.acctCtx id))).length = ids.length
            rw [List.length_set]
            exact h4
          · intro j hj
            by_cases hij : i = j
            · subst hij
              rw [List.getElem?_set_self hlen] at hj
              exact absurd hj (by simp)
            · rw [List.getElem?_set_ne hij] at hj
              exact h5 j hj
          · intro j v hj
            by_cases hij : i = j
            · subst hij
              rw [List.getElem?_set_self hlen] at hj
              injection hj with hj
              injection hj with hj
              refine ⟨id, hid, Or.inr ⟨hne2, ?_, ?_⟩⟩
              · exact hj.symm
              · show (if id = id then true else s.hasCtx id) = true
                rw [if_pos rfl]
            · rw [List.getElem?_set_ne hij] at hj
              obtain ⟨id3, hid3, hcase⟩ := h6 j v hj
              refine ⟨id3, hid3, ?_⟩
              rcases hcase with hcase | ⟨hne3, hv3, hct3⟩
              · exact Or.inl hcase
              · refine Or.inr ⟨hne3, hv3, ?_⟩
                show (if id3 = id then true else s.hasCtx id3) = true
                by_cases heq : id3 = id
                · rw [if_pos heq]
                · rw [if_neg heq]
                  exact hct3
      | finished v =>
        rw [concAdvance_finished ids s i id v hid hph]
        exact ⟨h1, h2, h3, h4, h5, h6⟩

theorem concInv_init (ids : List String) : ConcInv ids (concInit ids) := by
  refine ⟨rfl, rfl, ?_, ?_, ?_, ?_⟩
  · intro id hne
    rfl
  · exact List.length_replicate _ _
  · intro j hj
    rcases List.getElem?_eq_some.mp hj with ⟨hlt, hget⟩
    simp only [concInit] at hget
    rw [List.getElem_replicate] at hget
    exact absurd hget.symm (by simp)
  · intro j v hj
    rcases List.getElem?_eq_some.mp hj with ⟨hlt, hget⟩
    simp only [concInit] at hget
    rw [List.getElem_replicate] at hget
    exact absurd hget.symm (by simp)

theorem concInv_run (ids : List String) (sched : List Nat) (s : ConcState)
    (hinv : ConcInv ids s) : ConcInv ids (concRun ids s sched) := by
  induction sched generalizing s with
  | nil => exact hinv
  | cons i rest ih =>
    exact ih (concAdvance ids s i) (concInv_advance ids s hinv i)

/-- Claim C9: for every list of account ids and every interleaving of the
calls' read-locked and write-locked phases, at most one context is ever
created per account id; every finished call for a non-empty id returns
that id's context, which was created exactly once; and a call with the
empty id returns the root browser context while the context map is never
touched for the empty id. -/
theorem C9_context_created_exactly_once (ids : List String) (sched : List Nat) :
    (∀ id, (concRun ids (concInit ids) sched).createdCount id ≤ 1) ∧
    (∀ (i : Nat) (id : String) (v : CtxVal), ids[i]? = some id →
      (concRun ids (concInit ids) sched).phases[i]? = some (CallPhase.finished v) →
      (id = "" → v = CtxVal.rootCtx ∧
        (concRun ids (concInit ids) sched).createdCount "" = 0) ∧
      (id ≠ "" → v = CtxVal.acctCtx id ∧
        (concRun ids (concInit ids) sched).createdCount id = 1)) := by
  obtain ⟨h1, h2, h3, h4, h5, h6⟩ := concInv_run ids sched (concInit ids) (concInv_init ids)
  constructor
  · intro id
    by_cases hid0 : id = ""
    · rw [hid0, h2]
      omega
    · rw [h3 id hid0]
      split <;> omega
  · intro i id v hid hph
    obtain ⟨id2, hid2, hcase⟩ := h6 i v hph
    rw [hid] at hid2
    injection hid2 with hid2
    subst hid2
    constructor
    · intro hid0
      rcases hcase with ⟨_, hv⟩ | ⟨hne, _, _⟩
      · exact ⟨hv, h2⟩
      · exact absurd hid0 hne
    · intro hne
      rcases hcase with ⟨hid0, _⟩ | ⟨_, hv, hct⟩
      · exact absurd hid0 hne
      · refine ⟨hv, ?_⟩
        rw [h3 id hne, if_pos hct]

/-- Witness for C9: two racing calls for the account `"a"` — both pass the
read-locked lookup before either enters the write lock — still create
exactly one context, and both finish with that context. -/
theorem C9_context_created_exactly_once_witness :
    (concRun ["a", "a"] (concInit ["a", "a"]) [0, 1, 0, 1]).createdCount "a" = 1 ∧
    CtxVal.acctCtx "a" = CtxVal.acctCtx "a" :=
  ⟨(((C9_context_created_exactly_once ["a", "a"] [0, 1, 0, 1]).2 0 "a"
      (.acctCtx "a") (by decide) (by decide)).2 (by decide)).2, rfl⟩

/-! ## Account id resolution -/

/-- Claim C10: when neither the `account_id` query parameter nor the
`X-Account-ID` header is set, `getAccountID` returns the hardcoded
account id rather than the empty string, so such requests are served
under that fixed account and not under the default account's legacy
credential path. -/
theorem C10_empty_request_served_under_hardcoded_account (query header : String)
    (hq : query = "") (hh : header = "") :
    getAccountID query header = hardcodedAccountID ∧
    getAccountID query header ≠ "" ∧
    (∀ tmp, getCookiesFilePath tmp (getAccountID query header) ≠
      getCookiesFilePath tmp "") := by
  subst hq hh
  refine ⟨rfl, by decide, ?_⟩
  intro tmp
  cases tmp <;> decide

/-- Witness for C10 at the concrete empty query and header. -/
theorem C10_empty_request_served_under_hardcoded_account_witness :
    getAccountID "" "" = hardcodedAccountID ∧
    getAccountID "" "" ≠ "" ∧
    (∀ tmp, getCookiesFilePath tmp (getAccountID "" "") ≠ getCookiesFilePath tmp "") :=
  C10_empty_request_served_under_hardcoded_account "" "" rfl rfl

end SnsPoster
